import Mathlib

/-!
Verification of the reverse-complement (RC) equivariance wrappers in
`mamba_ssm/modules/rc_wrapper.py`.

A tensor of shape (batch, length, channels) is embedded as a function
`Fin b → Fin l → Fin c → ℚ`; exact rational arithmetic stands in for the
floating-point arithmetic of the tensor library.  `torch.flip(x, dims=[-2,-1])`
becomes `rcT`, slicing `x[..., :c/2]` / `x[..., c/2:]` becomes `firstHalf` /
`secondHalf` on tensors typed with channel count `h + h`, and
`torch.cat([u, v], dim=-1)` becomes `catChan`.  A wrapped submodule
(`nn.Module`) is an opaque function between tensor types; `nn.Linear` is a
weight matrix together with a bias vector (`linearNB` for `bias=False`
layers).
-/

namespace RCWrapper

/-- Tensor of shape (batch, length, channels) with exact rational entries. -/
abbrev Tensor (b l c : ℕ) : Type := Fin b → Fin l → Fin c → ℚ

/-- Integer id tensor of shape (batch, length) with ids in `[0, v)`. -/
abbrev IdTensor (b l v : ℕ) : Type := Fin b → Fin l → Fin v

/-- Index reversal along one axis: position `k` goes to `n - 1 - k`. -/
def frev {n : ℕ} (k : Fin n) : Fin n :=
  ⟨n - 1 - k.val, by have := k.isLt; omega⟩

/-- `torch.flip(x, dims=[-1])` on a (batch, length, channels) tensor. -/
def flipChan {b l c : ℕ} (x : Tensor b l c) : Tensor b l c :=
  fun i j k => x i j (frev k)

/-- `torch.flip(x, dims=[-2, -1])`: flip the length and channel axes. -/
def rcT {b l c : ℕ} (x : Tensor b l c) : Tensor b l c :=
  fun i j k => x i (frev j) (frev k)

/-- Elementwise tensor addition. -/
def addT {b l c : ℕ} (x y : Tensor b l c) : Tensor b l c :=
  fun i j k => x i j k + y i j k

/-- Channel index into the first half of a `h + h`-channel tensor. -/
def fstIdx {h : ℕ} (k : Fin h) : Fin (h + h) :=
  ⟨k.val, by have := k.isLt; omega⟩

/-- Channel index into the second half of a `h + h`-channel tensor. -/
def sndIdx {h : ℕ} (k : Fin h) : Fin (h + h) :=
  ⟨h + k.val, by have := k.isLt; omega⟩

/-- `x[..., :n_channels // 2]` for a tensor with `h + h` channels. -/
def firstHalf {b l h : ℕ} (x : Tensor b l (h + h)) : Tensor b l h :=
  fun i j k => x i j (fstIdx k)

/-- `x[..., n_channels // 2:]` for a tensor with `h + h` channels. -/
def secondHalf {b l h : ℕ} (x : Tensor b l (h + h)) : Tensor b l h :=
  fun i j k => x i j (sndIdx k)

/-- `torch.cat([x, y], dim=-1)`: concatenation along the channel axis. -/
def catChan {b l c1 c2 : ℕ} (x : Tensor b l c1) (y : Tensor b l c2) :
    Tensor b l (c1 + c2) :=
  fun i j k =>
    if hlt : k.val < c1 then x i j ⟨k.val, hlt⟩
    else y i j ⟨k.val - c1, by have := k.isLt; omega⟩

/-- `nn.Linear(din, dout)` with its default bias. -/
structure Linear (din dout : ℕ) where
  weight : Fin dout → Fin din → ℚ
  bias : Fin dout → ℚ

/-- Apply a biased linear layer along the channel axis. -/
def Linear.apply {b l din dout : ℕ} (f : Linear din dout) (x : Tensor b l din) :
    Tensor b l dout :=
  fun i j o => (∑ k, f.weight o k * x i j k) + f.bias o

/-- `F.linear(x, W)` for a bias-free linear map: `x @ W.T`. -/
def linearNB {b l din dout : ℕ} (W : Fin dout → Fin din → ℚ) (x : Tensor b l din) :
    Tensor b l dout :=
  fun i j o => ∑ k, W o k * x i j k

/-- `nn.Embedding` lookup: each id is replaced by its embedding row. -/
def embed {b l v d : ℕ} (E : Fin v → Fin d → ℚ) (ids : IdTensor b l v) :
    Tensor b l d :=
  fun i j => E (ids i j)

namespace RCPSEmbedding

/-- `RCPSEmbedding.rc`: flip the id tensor along its last (length) axis and
send every id through the complement table. -/
def rc {b l v : ℕ} (comp : Fin v → Fin v) (ids : IdTensor b l v) :
    IdTensor b l v :=
  fun i j => comp (ids i (frev j))

/-- `RCPSEmbedding.forward`: embed and project the ids, embed and project the
reverse-complemented ids flipping the result back along length and channel
axes, and concatenate along the channel axis.  `proj` is the shared
`nn.Linear(d_model, d_model // 2)`. -/
def forward {b l v d hd : ℕ} (comp : Fin v → Fin v) (E : Fin v → Fin d → ℚ)
    (proj : Linear d hd) (ids : IdTensor b l v) : Tensor b l (hd + hd) :=
  catChan (proj.apply (embed E ids))
    (rcT (proj.apply (embed E (rc comp ids))))

/-- Shape bookkeeping of `RCPSEmbedding.__init__`: the constructor asserts
`d_model % 2 == 0` (raising on failure, modelled as `none`), then creates
`proj = nn.Linear(d_model, d_model // 2)`; the result records the projection
output width. -/
def initProj (d_model : ℕ) : Option ℕ :=
  if d_model % 2 = 0 then some (d_model / 2) else none

end RCPSEmbedding

namespace RCPSWrapper

/-- `RCPSWrapper.forward`: run the submodule on `x` and on the flipped `x`,
flip the second result back, and concatenate along the channel axis. -/
def forward {b l c c2 : ℕ} (submodule : Tensor b l c → Tensor b l c2)
    (x : Tensor b l c) : Tensor b l (c2 + c2) :=
  catChan (submodule x) (rcT (submodule (rcT x)))

end RCPSWrapper

namespace RCPSWrapperKeepDim

/-- `RCPSWrapperKeepDim.forward`: as `RCPSWrapper.forward` but each branch is
projected through the one shared `proj` layer before concatenation. -/
def forward {b l c dim hd : ℕ} (submodule : Tensor b l c → Tensor b l dim)
    (proj : Linear dim hd) (x : Tensor b l c) : Tensor b l (hd + hd) :=
  catChan (proj.apply (submodule x)) (rcT (proj.apply (submodule (rcT x))))

/-- Shape bookkeeping of `RCPSWrapperKeepDim.__init__`: asserts
`dim % 2 == 0` then creates `proj = nn.Linear(dim, dim // 2)`. -/
def initProj (dim : ℕ) : Option ℕ :=
  if dim % 2 = 0 then some (dim / 2) else none

end RCPSWrapperKeepDim

namespace RCPSAddNormWrapper

/-- The pre-normalization residual sum: `x + residual` when a residual is
supplied, else `x`. -/
def residualSum {b l c : ℕ} (x : Tensor b l c) (residual : Option (Tensor b l c)) :
    Tensor b l c :=
  match residual with
  | some r => addT x r
  | none => x

/-- `RCPSAddNormWrapper.forward` with an opaque normalization module
`norm`: returns the pair (normalized output, residual to propagate).  The
dtype cast of the source is the identity under exact arithmetic. -/
def forward {b l c : ℕ} (norm : Tensor b l c → Tensor b l c) (x : Tensor b l c)
    (residual : Option (Tensor b l c)) :
    Tensor b l (c + c) × Tensor b l (c + c) :=
  let residual_fwd := residualSum x residual
  let x_fwd := norm residual_fwd
  let residual_rc :=
    match residual with
    | some r => addT (rcT x) (rcT r)
    | none => rcT x
  let x_rc := norm residual_rc
  (catChan x_fwd (rcT x_rc), catChan residual_fwd (rcT residual_rc))

/-- Stated from the claim's words, for comparison with `forward`: the
returned x as the channel concatenation of the normalized forward residual
sum and the normalized reverse-branch residual sum, and the returned
residual as the channel concatenation of the two pre-normalization residual
sums, with no flip back before concatenating. -/
def claimedForward {b l c : ℕ} (norm : Tensor b l c → Tensor b l c)
    (x : Tensor b l c) (residual : Option (Tensor b l c)) :
    Tensor b l (c + c) × Tensor b l (c + c) :=
  let residual_fwd := residualSum x residual
  let residual_rc :=
    match residual with
    | some r => addT (rcT x) (rcT r)
    | none => rcT x
  (catChan (norm residual_fwd) (norm residual_rc), catChan residual_fwd residual_rc)

end RCPSAddNormWrapper

namespace RCPSAddNormWrapperKeepDim

/-- Shape bookkeeping of `RCPSAddNormWrapperKeepDim.__init__`: the source
has NO evenness assertion; it unconditionally creates
`res_proj = nn.Linear(dim, dim // 2, bias=False)` (integer floor division). -/
def initProj (dim : ℕ) : Option ℕ :=
  some (dim / 2)

end RCPSAddNormWrapperKeepDim

namespace RCPSLMHead

/-- Row (vocabulary-axis) flip of the head weight matrix. -/
def flipRows {voc h : ℕ} (W : Fin voc → Fin h → ℚ) : Fin voc → Fin h → ℚ :=
  fun v k => W (frev v) k

/-- `RCPSLMHead.forward`: apply the shared bias-free head to the first
channel half, and to the channel-flipped second half, flip those logits back
along the vocabulary axis, and sum. -/
def forward {b l h voc : ℕ} (W : Fin voc → Fin h → ℚ) (x : Tensor b l (h + h)) :
    Tensor b l voc :=
  addT (linearNB W (firstHalf x))
    (flipChan (linearNB W (flipChan (secondHalf x))))

end RCPSLMHead

namespace RCPSCollapse

/-- `RCPSCollapse.forward`: average the first channel half with the
length-and-channel flip of the second channel half. -/
def forward {b l h : ℕ} (x : Tensor b l (h + h)) : Tensor b l h :=
  fun i j k => (firstHalf x i j k + rcT (secondHalf x) i j k) / 2

end RCPSCollapse

/-- The complement buffer built by `RCPSEmbedding.__init__`:
`torch.tensor(list(OrderedDict(complement_map).values()))`.  A Python dict
has unique keys and `OrderedDict` preserves its iteration order, so the
buffer is exactly the list of values in iteration order; the keys are never
consulted. -/
def buildComplementTable (m : List (ℕ × ℕ)) : List ℕ :=
  m.map Prod.snd

/-- The complement function the module actually computes for an in-range id
`t`: positional lookup `complement_map[t]` into the values-in-order table. -/
def tableComp (m : List (ℕ × ℕ)) (t : ℕ) : ℕ :=
  (buildComplementTable m).getD t 0

/-- The key-to-value reading of the supplied mapping: the value whose key is
`t` (defaulting to 0 when absent). -/
def keyComp (m : List (ℕ × ℕ)) (t : ℕ) : ℕ :=
  ((m.find? (fun p => p.fst == t)).map Prod.snd).getD 0

/-- The DNA complement map of the spec's concrete scenario:
A↔T, C↔G as ids 0↔1, 2↔3. -/
def dnaComplement : Fin 4 → Fin 4 := ![1, 0, 3, 2]

/-- A non-involutive complement map: every id maps to 0. -/
def comp0 : Fin 2 → Fin 2 := fun _ => 0

/-- Embedding table over a 2-id vocabulary whose rows are distinct. -/
def E0 : Fin 2 → Fin 2 → ℚ := fun t _ => (t.val : ℚ)

/-- Embedding table over the 4-id DNA vocabulary. -/
def E1 : Fin 4 → Fin 2 → ℚ := fun t k => (t.val : ℚ) + (k.val : ℚ)

/-- Projection `nn.Linear(2, 1)` summing both input channels, zero bias. -/
def proj0 : Linear 2 1 := ⟨fun _ _ => 1, fun _ => 0⟩

/-- Batch-1, length-1 id sequence holding the single id 1. -/
def ids0 : IdTensor 1 1 2 := fun _ _ => 1

/-- Batch-1, length-2 DNA id sequence (0, 1). -/
def ids1 : IdTensor 1 2 4 := fun _ j => ⟨j.val, by have := j.isLt; omega⟩

/-- A symmetric fixed point of `rcT`: entries [[1, 2], [2, 1]] over
(length, channel) whose channel halves are not equal as raw slices. -/
def xSymm : Tensor 1 2 (1 + 1) :=
  fun _ j k =>
    if j.val = 0 then (if k.val = 0 then 1 else 2)
    else (if k.val = 0 then 2 else 1)

/-- A non-symmetric single-channel tensor with entries 1, 2 along length. -/
def xRamp : Tensor 1 2 1 := fun _ j _ => (j.val : ℚ) + 1

/-- A submodule from 1 channel to 2 channels duplicating its input. -/
def dup0 : Tensor 1 1 1 → Tensor 1 1 2 := fun x i j _ => x i j ⟨0, by omega⟩

/-- Batch-1, length-1, single-channel tensor holding 1. -/
def x1 : Tensor 1 1 1 := fun _ _ _ => 1

end RCWrapper

namespace RCWrapper

@[simp] theorem frev_val {n : ℕ} (k : Fin n) : (frev k).val = n - 1 - k.val := rfl

@[simp] theorem frev_frev {n : ℕ} (k : Fin n) : frev (frev k) = k := by
  ext
  have := k.isLt
  simp [frev]
  omega

@[simp] theorem rcT_rcT {b l c : ℕ} (x : Tensor b l c) : rcT (rcT x) = x := by
  funext i j k
  simp [rcT]

@[simp] theorem frev_fstIdx {h : ℕ} (k : Fin h) :
    frev (fstIdx k) = sndIdx (frev k) := by
  ext
  have := k.isLt
  simp [frev, fstIdx, sndIdx]
  omega

@[simp] theorem frev_sndIdx {h : ℕ} (k : Fin h) :
    frev (sndIdx k) = fstIdx (frev k) := by
  ext
  have := k.isLt
  simp [frev, fstIdx, sndIdx]
  omega

@[simp] theorem catChan_fstIdx {b l c : ℕ} (x y : Tensor b l c)
    (i : Fin b) (j : Fin l) (k : Fin c) :
    catChan x y i j (fstIdx k) = x i j k := by
  simp only [catChan, fstIdx]
  rw [dif_pos k.isLt]

@[simp] theorem catChan_sndIdx {b l c : ℕ} (x y : Tensor b l c)
    (i : Fin b) (j : Fin l) (k : Fin c) :
    catChan x y i j (sndIdx k) = y i j k := by
  simp only [catChan, sndIdx]
  rw [dif_neg (by omega)]
  congr 1
  ext
  simp

theorem idx_cases {c : ℕ} (k : Fin (c + c)) :
    (∃ k0 : Fin c, k = fstIdx k0) ∨ (∃ k0 : Fin c, k = sndIdx k0) := by
  by_cases hc : k.val < c
  · exact Or.inl ⟨⟨k.val, hc⟩, by ext; simp [fstIdx]⟩
  · refine Or.inr ⟨⟨k.val - c, by have := k.isLt; omega⟩, ?_⟩
    ext
    have := k.isLt
    simp [sndIdx]
    omega

theorem rcT_catChan {b l c : ℕ} (x y : Tensor b l c) :
    rcT (catChan x y) = catChan (rcT y) (rcT x) := by
  funext i j k
  rcases idx_cases k with ⟨k0, rfl⟩ | ⟨k0, rfl⟩
  · simp [rcT]
  · simp [rcT]

/-- Reverse-complementing an id sequence twice is the identity when the
complement map is an involution. -/
theorem rc_rc {b l v : ℕ} (comp : Fin v → Fin v) (hinv : ∀ t, comp (comp t) = t)
    (ids : IdTensor b l v) :
    RCPSEmbedding.rc comp (RCPSEmbedding.rc comp ids) = ids := by
  funext i j
  simp [RCPSEmbedding.rc, hinv]

/-- Claim C3: applying the reverse-complement primitive `RCPSEmbedding.rc`
twice returns the id sequence unchanged, provided the supplied complement map
is an involution. -/
theorem rcps_embedding_rc_involutive {b l v : ℕ} (comp : Fin v → Fin v)
    (hinv : ∀ t, comp (comp t) = t) (ids : IdTensor b l v) :
    RCPSEmbedding.rc comp (RCPSEmbedding.rc comp ids) = ids := by
  funext i j
  simp [RCPSEmbedding.rc, hinv]

/-- Witness for C3 at the concrete DNA complement map and sequence (0, 1). -/
theorem rcps_embedding_rc_involutive_witness :
    (∀ t, dnaComplement (dnaComplement t) = t) ∧
    RCPSEmbedding.rc dnaComplement (RCPSEmbedding.rc dnaComplement ids1) = ids1 :=
  ⟨by decide, rcps_embedding_rc_involutive dnaComplement (by decide) ids1⟩

/-- Claim C1 (amended): `RCPSEmbedding.forward` of the reverse-complemented
id sequence equals the length-and-channel flip of the forward pass on the
original sequence, for every embedding table and projection, provided the
complement map is an involution (the data-model invariant the source
requires but does not check). -/
theorem rcps_embedding_equivariant {b l v d hd : ℕ} (comp : Fin v → Fin v)
    (E : Fin v → Fin d → ℚ) (proj : Linear d hd)
    (hinv : ∀ t, comp (comp t) = t) (ids : IdTensor b l v) :
    RCPSEmbedding.forward comp E proj (RCPSEmbedding.rc comp ids)
      = rcT (RCPSEmbedding.forward comp E proj ids) := by
  have hrc := rc_rc comp hinv ids
  simp [RCPSEmbedding.forward, rcT_catChan, rcT_rcT, hrc]

/-- Witness for C1 at the DNA complement map, concrete embedding table,
projection and id sequence. -/
theorem rcps_embedding_equivariant_witness :
    (∀ t, dnaComplement (dnaComplement t) = t) ∧
    RCPSEmbedding.forward dnaComplement E1 proj0 (RCPSEmbedding.rc dnaComplement ids1)
      = rcT (RCPSEmbedding.forward dnaComplement E1 proj0 ids1) :=
  ⟨by decide, rcps_embedding_equivariant dnaComplement E1 proj0 (by decide) ids1⟩

/-- Counterexample to C1 as stated: with the non-involutive complement map
`comp0` (every id to 0) and concrete parameters, the equivariance relation
fails, so the claim does not hold for every complement map. -/
theorem rcps_embedding_equivariant_counterexample :
    RCPSEmbedding.forward comp0 E0 proj0 (RCPSEmbedding.rc comp0 ids0)
      ≠ rcT (RCPSEmbedding.forward comp0 E0 proj0 ids0) := by
  intro h
  have h2 := congrFun (congrFun (congrFun h 0) 0) 1
  simp [RCPSEmbedding.forward, RCPSEmbedding.rc, embed, Linear.apply, comp0, E0,
    proj0, ids0, rcT, catChan, frev, Fin.sum_univ_two] at h2

/-- Claim C2: `RCPSWrapper.forward` is equivariant under the joint
length-and-channel flip.  Proved for every deterministic submodule, which
subsumes the pointwise-in-channel, shift-invariant-in-length submodules the
claim quantifies over. -/
theorem rcps_wrapper_equivariant {b l c c2 : ℕ}
    (submodule : Tensor b l c → Tensor b l c2) (x : Tensor b l c) :
    RCPSWrapper.forward submodule (rcT x) = rcT (RCPSWrapper.forward submodule x) := by
  simp [RCPSWrapper.forward, rcT_catChan, rcT_rcT]

/-- Claim C4: constructing `RCPSEmbedding` or `RCPSWrapperKeepDim` with an
odd dimensionality fails (assertion), but `RCPSAddNormWrapperKeepDim` has no
assertion: at dim 3 it constructs successfully with a silently truncating
`nn.Linear(3, 1)` projection; at even dims all three succeed. -/
theorem odd_dim_construction_status :
    RCPSEmbedding.initProj 3 = none ∧
    RCPSWrapperKeepDim.initProj 3 = none ∧
    RCPSAddNormWrapperKeepDim.initProj 3 = some 1 ∧
    RCPSEmbedding.initProj 4 = some 2 ∧
    RCPSWrapperKeepDim.initProj 4 = some 2 ∧
    RCPSAddNormWrapperKeepDim.initProj 4 = some 2 := by decide

/-- Claim C5: feeding the length-and-channel flip of a hidden tensor to
`RCPSLMHead.forward` yields the length-and-vocabulary flip of the original
logits, for every head weight and every hidden tensor. -/
theorem rcps_lmhead_equivariant {b l h voc : ℕ} (W : Fin voc → Fin h → ℚ)
    (x : Tensor b l (h + h)) :
    RCPSLMHead.forward W (rcT x) = rcT (RCPSLMHead.forward W x) := by
  funext i j v
  simp only [RCPSLMHead.forward, addT, linearNB, flipChan, firstHalf, secondHalf,
    rcT, frev_frev, frev_fstIdx, frev_sndIdx]
  rw [add_comm]

/-- Claim C6 (amended): on a symmetric fixed point of the flip transform,
`RCPSCollapse.forward` equals the first channel half exactly, equivalently
the flip transform of the second channel half — not the raw second half. -/
theorem rcps_collapse_symmetric {b l h : ℕ} (x : Tensor b l (h + h))
    (hx : rcT x = x) :
    RCPSCollapse.forward x = firstHalf x ∧
    RCPSCollapse.forward x = rcT (secondHalf x) := by
  have key : ∀ i j k, rcT (secondHalf x) i j k = firstHalf x i j k := by
    intro i j k
    have h1 := congrFun (congrFun (congrFun hx i) j) (fstIdx k)
    simp only [rcT, frev_fstIdx] at h1
    simp only [rcT, secondHalf, firstHalf]
    exact h1
  constructor
  · funext i j k
    simp only [RCPSCollapse.forward, key]
    ring
  · funext i j k
    simp only [RCPSCollapse.forward, key]
    ring

/-- Witness for C6 at the concrete symmetric fixed point `xSymm`. -/
theorem rcps_collapse_symmetric_witness :
    rcT xSymm = xSymm ∧
    (RCPSCollapse.forward xSymm = firstHalf xSymm ∧
     RCPSCollapse.forward xSymm = rcT (secondHalf xSymm)) :=
  ⟨by decide, rcps_collapse_symmetric xSymm (by decide)⟩

/-- Counterexample to C6 as stated: `xSymm` is a symmetric fixed point, yet
the collapsed output differs from the raw second channel half. -/
theorem rcps_collapse_counterexample :
    rcT xSymm = xSymm ∧ RCPSCollapse.forward xSymm ≠ secondHalf xSymm := by
  constructor
  · decide
  · intro h
    have h2 := congrFun (congrFun (congrFun h 0) 0) 0
    simp [RCPSCollapse.forward, firstHalf, secondHalf, fstIdx, sndIdx, rcT, frev,
      xSymm] at h2

/-- Claim C7: `RCPSLMHead.forward` equals the elementwise sum of the shared
bias-free head applied to the first channel half and the vocabulary-axis
flip of the head applied to the channel-axis flip of the second half. -/
theorem rcps_lmhead_formula {b l h voc : ℕ} (W : Fin voc → Fin h → ℚ)
    (x : Tensor b l (h + h)) :
    RCPSLMHead.forward W x
      = addT (linearNB W (firstHalf x))
          (linearNB (RCPSLMHead.flipRows W) (flipChan (secondHalf x))) := rfl

/-- Claim C8 (amended): `RCPSAddNormWrapper.forward` returns as x the
channel concatenation of the normalized forward residual sum with the FLIP
of the normalized reverse-branch residual sum, and as residual the channel
concatenation of the forward sum with the flip of the reverse sum; since the
reverse sum is itself the flip of the forward sum, the returned residual
duplicates the forward sum in both halves. -/
theorem rcps_addnorm_structure {b l c : ℕ} (norm : Tensor b l c → Tensor b l c)
    (x : Tensor b l c) (residual : Option (Tensor b l c)) :
    RCPSAddNormWrapper.forward norm x residual
      = (catChan (norm (RCPSAddNormWrapper.residualSum x residual))
           (rcT (norm (rcT (RCPSAddNormWrapper.residualSum x residual)))),
         catChan (RCPSAddNormWrapper.residualSum x residual)
           (RCPSAddNormWrapper.residualSum x residual)) := by
  cases residual with
  | none =>
      simp [RCPSAddNormWrapper.forward, RCPSAddNormWrapper.residualSum, rcT_rcT]
  | some r =>
      have hlin : addT (rcT x) (rcT r) = rcT (addT x r) := rfl
      simp [RCPSAddNormWrapper.forward, RCPSAddNormWrapper.residualSum, hlin, rcT_rcT]

/-- Counterexample to C8 as stated: with the identity normalization, no
residual and a non-symmetric input, the code's returned pair differs from
the claim's concatenation-without-flip reading. -/
theorem rcps_addnorm_claim_counterexample :
    RCPSAddNormWrapper.forward (fun y => y) xRamp none
      ≠ RCPSAddNormWrapper.claimedForward (fun y => y) xRamp none := by
  intro h
  have h1 := congrArg Prod.fst h
  have h2 := congrFun (congrFun (congrFun h1 0) 0) 1
  simp [RCPSAddNormWrapper.forward, RCPSAddNormWrapper.claimedForward,
    RCPSAddNormWrapper.residualSum, xRamp, rcT, catChan, frev] at h2

/-- Claim C9: for an even constructor dimension, `RCPSWrapperKeepDim`
constructs successfully, its shared projection halves the channel width so
the concatenated output width equals the submodule output width, and its
forward pass projects both branch outputs through the one shared map before
concatenation. -/
theorem rcps_keepdim_shared_proj {b l c dim : ℕ} (hdim : dim % 2 = 0)
    (f : Tensor b l c → Tensor b l dim) (proj : Linear dim (dim / 2))
    (x : Tensor b l c) :
    RCPSWrapperKeepDim.initProj dim = some (dim / 2) ∧
    dim / 2 + dim / 2 = dim ∧
    RCPSWrapperKeepDim.forward f proj x
      = catChan (proj.apply (f x)) (rcT (proj.apply (f (rcT x)))) := by
  refine ⟨?_, ?_, rfl⟩
  · simp [RCPSWrapperKeepDim.initProj, hdim]
  · omega

/-- Witness for C9 at dim 2 with a concrete duplicating submodule. -/
theorem rcps_keepdim_shared_proj_witness :
    (2 % 2 = 0) ∧
    (RCPSWrapperKeepDim.initProj 2 = some (2 / 2) ∧
     2 / 2 + 2 / 2 = 2 ∧
     RCPSWrapperKeepDim.forward dup0 proj0 x1
       = catChan (proj0.apply (dup0 x1)) (rcT (proj0.apply (dup0 (rcT x1))))) :=
  ⟨by decide, rcps_keepdim_shared_proj (by decide) dup0 proj0 x1⟩

/-- Claim C10: the complement buffer is the list of the supplied mapping's
values in iteration order (the keys are never consulted), and for the
concrete mapping [(1, 0), (0, 1)] whose keys are not 0..n-1 in order, the
positional-lookup complement function differs from the key-to-value
reading. -/
theorem complement_table_from_values :
    (∀ (m : List (ℕ × ℕ)) (i : ℕ), i < m.length →
      (buildComplementTable m).getD i 0 = (m.getD i (0, 0)).snd) ∧
    tableComp [(1, 0), (0, 1)] 0 ≠ keyComp [(1, 0), (0, 1)] 0 := by
  constructor
  · intro m i hi
    simp [buildComplementTable, List.getD_eq_getElem?_getD, List.getElem?_map,
      List.getElem?_eq_getElem hi]
  · decide

/-- Witness for C10: the table entry at index 0 is the first value of the
mapping in iteration order. -/
theorem complement_table_from_values_witness :
    (0 < ([(1, 0), (0, 1)] : List (ℕ × ℕ)).length) ∧
    (buildComplementTable [(1, 0), (0, 1)]).getD 0 0
      = (([(1, 0), (0, 1)] : List (ℕ × ℕ)).getD 0 (0, 0)).snd :=
  ⟨by decide, complement_table_from_values.1 [(1, 0), (0, 1)] 0 (by decide)⟩

end RCWrapper
